import Mathlib

/-!
Verification of the Snapmaker 2.0 CNC postprocessor
(`Snapmaker_2_CNC_post.py`) against its natural-language specification.

The Python source is shallowly embedded: machine numbers (Python floats)
are modelled as exact rationals, `Path.Command` parameter dictionaries as
association lists over the fixed 18-letter alphabet, the output stream as
a `List` of tagged lines, and the `G83` while-loop by fuel-bounded
recursion (fuel exhaustion, `none`, models non-termination of the Python
loop).
-/

namespace Snapmaker

/-- The fixed parameter alphabet, in the canonical iteration order used by
`Command.__str__` (source constant `GCODE_PARAMETERS`). -/
def GCODE_PARAMETERS : List String :=
  ["X", "Y", "Z", "A", "B", "C", "I", "J", "F", "S", "T", "Q", "R", "L", "H", "D", "P", "O"]

/-- A G-code command: mnemonic plus parameter mapping (source class
`Command` wrapping `Path.Command`).  Parameter values are numeric. -/
structure Cmd where
  name : String
  params : List (String × ℚ)
deriving DecidableEq

/-- The non-command output line kinds: raw passthrough text (`str`),
`Comment`, and `Header` (a `Comment` subclass). -/
inductive TKind where
  | raw
  | comment
  | header
deriving DecidableEq

/-- One line of the output stream (an element of the `Gcode` list). -/
inductive Line where
  | cmd (c : Cmd)
  | text (k : TKind) (s : String)
deriving DecidableEq

/-- Python `dict` equality of two parameter mappings, for keys drawn from
the fixed alphabet: the same lookup result for every letter. -/
def paramsEq (a b : List (String × ℚ)) : Bool :=
  GCODE_PARAMETERS.all (fun k => a.lookup k == b.lookup k)

/-- `Command.__eq__` between two commands: same `Name` and same
`Parameters` dictionary. -/
def cmdEq (a b : Cmd) : Bool :=
  a.name == b.name && paramsEq a.params b.params

/-- Equality test between two stream lines, as Python evaluates
`self[-1] == line`.  Comparing a `Command` with any object lacking `Name`
or `Parameters` (a `str`, `Comment` or `Header`) hits the
`AttributeError` branch of `Command.__eq__` and yields `False`; two
strings compare by content (the `Comment`/`Header`/`str` class
distinction is ignored by `str.__eq__`). -/
def lineEq : Line → Line → Bool
  | .cmd a, .cmd b => cmdEq a b
  | .text _ a, .text _ b => a == b
  | _, _ => false

/-- `Gcode.append`: with duplicate suppression enabled, a line equal to
the immediately preceding stream line is discarded; otherwise the line is
appended. -/
def gAppend (dedup : Bool) (g : List Line) (l : Line) : List Line :=
  match g.getLast? with
  | some prev => if dedup && lineEq prev l then g else g ++ [l]
  | none => g ++ [l]

/-! ### Spindle-speed mapping and command rendering -/

/-- Spindle-on mnemonics (`M3`, `M03`, `M4`, `M04`). -/
def spindleOnNames : List String := ["M3", "M03", "M4", "M04"]

/-- Dwell mnemonics (`G4`, `G04`). -/
def dwellNames : List String := ["G4", "G04"]

/-- Letters treated as positions by `Command.__str__`. -/
def positionLetters : List String :=
  ["X", "Y", "Z", "U", "V", "W", "I", "J", "K", "R", "Q"]

/-- Letters passed through as opaque identifiers. -/
def stringLetters : List String := ["T", "H", "D", "P", "L"]

/-- Rotary letters passed through as raw numbers. -/
def rotaryLetters : List String := ["A", "B", "C"]

/-- `speedAsPercent`: spindle rpm mapped to an integer percentage,
`int(max(min(speed, MAX_SPINDLE_SPEED), MIN_SPINDLE_SPEED) * 100 //
MAX_SPINDLE_SPEED)`.  The rpm range is a parameter (module constants
`MIN_SPINDLE_SPEED` / `MAX_SPINDLE_SPEED` in the source). -/
def speedAsPercent (minS maxS speed : ℚ) : ℤ :=
  ⌊max (min speed maxS) minS * 100 / maxS⌋

/-- The token `Command.__str__` emits for one present parameter `p` with
value `v`, as a (letter, numeric value) pair; `cp` and `cs` are the unit
conversions `convertPosition` and `convertSpeed`.  Letter `O` matches no
branch of the source and is silently dropped. -/
def tokenFor (minS maxS : ℚ) (cp cs : ℚ → ℚ) (name p : String) (v : ℚ) :
    Option (String × ℚ) :=
  if p ∈ positionLetters then some (p, cp v)
  else if p = "F" then some (p, cs v)
  else if p = "S" then
    if name ∈ spindleOnNames then some ("P", ((speedAsPercent minS maxS v : ℤ) : ℚ))
    else if name ∈ dwellNames then some ("S", v)
    else some ("S", cs v)
  else if p ∈ stringLetters then some (p, v)
  else if p ∈ rotaryLetters then some (p, v)
  else none

/-- The parameter tokens of a rendered command line, in the canonical
letter order (the loop body of `Command.__str__`). -/
def renderTokens (cp cs : ℚ → ℚ) (minS maxS : ℚ) (c : Cmd) : List (String × ℚ) :=
  GCODE_PARAMETERS.filterMap
    (fun p => (c.params.lookup p).bind (tokenFor minS maxS cp cs c.name p))

/-! ### Drill-cycle translation -/

/-- The value held by `Gcode.drillRetractMode`: either the `Command`
object it is initialised with (`Command(DRILL_RETRACT_MODE)`), or the
plain mnemonic string that `parseObject` assigns on seeing `G98`/`G99`. -/
inductive RetractMode where
  | ofCmd (c : Cmd)
  | ofName (n : String)
deriving DecidableEq

/-- The initial value `Command("G98")` (module default
`DRILL_RETRACT_MODE = "G98"`). -/
def defaultRetractMode : RetractMode := .ofCmd ⟨"G98", []⟩

/-- The Python test `self.gcode.drillRetractMode == "G98"`.  When the
field still holds a `Command`, `Command.__eq__` evaluates `"G98".Name`,
catches the `AttributeError`, and returns `False`; when it holds a
string, the comparison is string equality. -/
def modeIsG98 : RetractMode → Bool
  | .ofCmd _ => false
  | .ofName n => n == "G98"

/-- The retract height of a drill cycle (`translateDrill` lines 443-447):
current Z when the retract-mode test succeeds and current Z exceeds `R`,
else `R`. -/
def retractZOf (mode : RetractMode) (pz dr : ℚ) : ℚ :=
  if modeIsG98 mode ∧ dr < pz then pz else dr

/-- The `G83` peck while-loop, with explicit fuel; `none` models
non-termination of the Python loop.  `z` is `nextStopZ`, starting at
`drillR - drillStep`; `chip` is `chipSpace = drillStep * 0.5`. -/
def peckLoop (dz dr df q chip : ℚ) : ℕ → ℚ → Option (List Cmd)
  | 0, _ => none
  | n + 1, z =>
    if dz ≤ z then
      if dz ≤ z - q then
        (peckLoop dz dr df q chip n (z - q)).map
          (fun rest =>
            ⟨"G1", [("Z", z), ("F", df)]⟩ :: ⟨"G0", [("Z", dr)]⟩ ::
              ⟨"G0", [("Z", z + chip)]⟩ :: rest)
      else if z = dz then some [⟨"G1", [("Z", z), ("F", df)]⟩]
      else
        some [⟨"G1", [("Z", z), ("F", df)]⟩, ⟨"G0", [("Z", dr)]⟩,
          ⟨"G0", [("Z", z + chip)]⟩, ⟨"G1", [("Z", dz), ("F", df)]⟩]
    else some []

/-- The cycle body of `translateDrill`: one feed move (`G81`), feed move
plus dwell (`G82`), or the peck loop (`G83`); a missing `P`/`Q`
parameter raises `KeyError` in the source (`none` here).  The `G83` fuel
`⌈(R - Z) / Q⌉ + 1` is proved sufficient for `Q > 0` below. -/
def drillBody (c : Cmd) (dz dr df : ℚ) : Option (List Cmd) :=
  if c.name = "G81" then some [⟨"G1", [("Z", dz), ("F", df)]⟩]
  else if c.name = "G82" then
    match c.params.lookup "P" with
    | some p => some [⟨"G1", [("Z", dz), ("F", df)]⟩, ⟨"G4", [("S", p)]⟩]
    | none => none
  else if c.name = "G83" then
    match c.params.lookup "Q" with
    | some q => peckLoop dz dr df q (q * (1 / 2)) (⌈(dr - dz) / q⌉.toNat + 1) (dr - q)
    | none => none
  else some []

/-- `Postprocessor.translateDrill`: the sequence of commands the cycle
emits (each is handed to `addCommand`), given the ambient retract mode
and the current position recovered from the stream.  `some []` is the
error return on `R < Z`; `none` models a raised exception or a
non-terminating loop. -/
def translateDrill (mode : RetractMode) (px py pz : ℚ) (c : Cmd) :
    Option (List Cmd) :=
  match c.params.lookup "X", c.params.lookup "Y", c.params.lookup "Z",
      c.params.lookup "R", c.params.lookup "F" with
  | some dx, some dy, some dz, some dr, some df =>
    if dr < dz then some []
    else
      let retractZ := retractZOf mode pz dr
      let pre : List Cmd :=
        (if pz < retractZ then [⟨"G0", [("Z", retractZ)]⟩] else []) ++
          (if px ≠ dx ∧ py ≠ dy then [⟨"G0", [("X", dx), ("Y", dy)]⟩] else []) ++
          [⟨"G0", [("Z", dr)]⟩]
      (drillBody c dz dr df).map (fun b => pre ++ b ++ [⟨"G0", [("Z", retractZ)]⟩])
  | _, _, _, _, _ => none

/-- The feed (`G1`) moves of an emitted command list. -/
def feedMoves (l : List Cmd) : List Cmd :=
  l.filter (fun m => m.name == "G1")

/-! ### Modal-state backward lookups -/

/-- `Gcode.lastParameter` (at its default `start=-1`), exactly as the
source loop executes: an empty stream yields the default; a one-element
stream exhausts `range(0, 0, -1)` and falls through to Python's implicit
`None`; otherwise only the final line is inspected (the unconditional
`return default` ends the first loop iteration) and the default is
returned unless that single line matches. -/
def lastParameter (g : List Line) (p : String) (names : List String)
    (default : Option ℚ) : Option ℚ :=
  match g with
  | [] => default
  | [_] => none
  | _ =>
    match g.getLast? with
    | some (.cmd c) =>
      if (names.isEmpty || names.contains c.name) && (c.params.lookup p).isSome then
        c.params.lookup p
      else default
    | _ => default

/-- `Gcode.lastCommand` (at its default `start=-1`), with the same
single-inspection shape as `lastParameter`. -/
def lastCommand (g : List Line) (names : List String) (default : Option Cmd) :
    Option Cmd :=
  match g with
  | [] => default
  | [_] => none
  | _ =>
    match g.getLast? with
    | some (.cmd c) => if names.contains c.name then some c else default
    | _ => default

/-- Whether one line satisfies the `lastParameter` match condition, and
if so the parameter value it supplies. -/
def lineParamHit (p : String) (names : List String) : Line → Option ℚ
  | .cmd c =>
    if (names.isEmpty || names.contains c.name) && (c.params.lookup p).isSome then
      c.params.lookup p
    else none
  | _ => none

/-- The full-backward-scan contract of `lastParameter` stated by the
spec (§4.2): examine every prior line from the end of the stream until a
match is found, returning the default only when the whole stream is
exhausted. -/
def lastParameterScan (g : List Line) (p : String) (names : List String)
    (default : Option ℚ) : Option ℚ :=
  match g.reverse.findSome? (lineParamHit p names) with
  | some v => some v
  | none => default

/-- Whether one line satisfies the `lastCommand` match condition. -/
def lineCmdHit (names : List String) : Line → Option Cmd
  | .cmd c => if names.contains c.name then some c else none
  | _ => none

/-- The full-backward-scan contract of `lastCommand` stated by the spec
(§4.2). -/
def lastCommandScan (g : List Line) (names : List String) (default : Option Cmd) :
    Option Cmd :=
  match g.reverse.findSome? (lineCmdHit names) with
  | some c => some c
  | none => default

/-! ### Boundary checker -/

/-- Per-axis replay state: current position and running max/min
(`position[axis]`, `boundaries[axis][0]`, `boundaries[axis][1]`). -/
structure BAxis where
  pos : ℚ
  mx : ℚ
  mn : ℚ
deriving DecidableEq

/-- Full replay state of `checkBoundaries`: the `relative` flag plus the
three axis accumulators. -/
structure BSt where
  rel : Bool
  ax : BAxis
  ay : BAxis
  az : BAxis
deriving DecidableEq

/-- One axis update of the replay loop body. -/
def stepAxis (rel : Bool) (a : BAxis) : Option ℚ → BAxis
  | none => a
  | some v =>
    let p := if rel then a.pos + v else v
    ⟨p, max a.mx p, min a.mn p⟩

/-- One iteration of the `checkBoundaries` replay.  Note that the source
sets `relative = False` for `G91` as well as `G90`, so the flag never
becomes true. -/
def bstep (s : BSt) : Line → BSt
  | .cmd c =>
    if c.name = "G90" then { s with rel := false }
    else if c.name = "G91" then { s with rel := false }
    else if c.name = "G0" ∨ c.name = "G1" then
      { s with
        ax := stepAxis s.rel s.ax (c.params.lookup "X"),
        ay := stepAxis s.rel s.ay (c.params.lookup "Y"),
        az := stepAxis s.rel s.az (c.params.lookup "Z") }
    else s
  | _ => s

/-- The initial replay state (`position = 0`, `boundaries = [0, 0]`,
`relative = False`). -/
def initBSt : BSt := ⟨false, ⟨0, 0, 0⟩, ⟨0, 0, 0⟩, ⟨0, 0, 0⟩⟩

/-- `Postprocessor.checkBoundaries` on a finished stream, given the
configured per-axis limits: the per-axis warning flags
(`abs(max - min) > limit`). -/
def checkBoundaries (limX limY limZ : ℚ) (g : List Line) : Bool × Bool × Bool :=
  let s := g.foldl bstep initBSt
  (decide (limX < |s.ax.mx - s.ax.mn|), decide (limY < |s.ay.mx - s.ay.mn|),
    decide (limZ < |s.az.mx - s.az.mn|))

/-- The absolute position a line contributes to one axis during the
replay (motion commands carrying that parameter). -/
def lineAxisValue (ax : String) : Line → Option ℚ
  | .cmd c => if c.name = "G0" ∨ c.name = "G1" then c.params.lookup ax else none
  | _ => none

/-- The successive positions one axis takes during the replay. -/
def axisValues (ax : String) (g : List Line) : List ℚ :=
  g.filterMap (lineAxisValue ax)

/-- The travel extent of one axis: maximum minus minimum of the replayed
positions (the start position 0 included). -/
def specExtent (ax : String) (g : List Line) : ℚ :=
  (axisValues ax g).foldl max 0 - (axisValues ax g).foldl min 0

/-- Pure single-axis form of the replay fold. -/
def axisFold (vs : List ℚ) (a : BAxis) : BAxis :=
  vs.foldl (fun st v => ⟨v, max st.mx v, min st.mn v⟩) a

/-! ### Rendering with line numbers -/

/-- The configuration switches `Gcode.__str__` consults. -/
structure RenderConf where
  header : Bool
  comments : Bool
  line_numbers : Bool
  line_start : ℤ
  line_increment : ℤ
deriving DecidableEq

/-- Whether a line's exact type is in `Gcode.types` (`Command` and `str`
always; `Header` when headers are enabled; `Comment` when comments are
enabled). -/
def included (conf : RenderConf) : Line → Bool
  | .cmd _ => true
  | .text .raw _ => true
  | .text .comment _ => conf.comments
  | .text .header _ => conf.header

/-- Whether a line's exact type is in `(Command, str)` — the only lines
that receive an `N` prefix (a `Comment`/`Header` has type `Comment`/
`Header`, not `str`). -/
def numberedKind : Line → Bool
  | .cmd _ => true
  | .text .raw _ => true
  | .text _ _ => false

/-- `Gcode.__str__`: each rendered line paired with the line number it is
prefixed with, if any; `nbr` is the running counter of numbered lines
(the textual materialisation of each line is abstracted away). -/
def renderNumbered (conf : RenderConf) : List Line → ℕ → List (Option ℤ × Line)
  | [], _ => []
  | l :: ls, nbr =>
    if included conf l then
      if conf.line_numbers && numberedKind l then
        (some (conf.line_start + (nbr : ℤ) * conf.line_increment), l) ::
          renderNumbered conf ls (nbr + 1)
      else (none, l) :: renderNumbered conf ls nbr
    else renderNumbered conf ls nbr

/-- Numbering contract in the spec's words, on the already-filtered list
of rendered lines: every rendered `Command`/raw line is prefixed with
`N(start + n*increment)` where `n` counts those lines; rendered comment
and header lines carry no number. -/
def specNumbering (conf : RenderConf) : List Line → ℕ → List (Option ℤ × Line)
  | [], _ => []
  | l :: ls, n =>
    if numberedKind l then
      (some (conf.line_start + (n : ℤ) * conf.line_increment), l) ::
        specNumbering conf ls (n + 1)
    else (none, l) :: specNumbering conf ls n

/-- The tail of `Postprocessor.export`: the rendered artifact together
with the advisory boundary-check outcome; the artifact does not depend on
that outcome. -/
def exportResult (conf : RenderConf) (bc : Bool) (limX limY limZ : ℚ)
    (g : List Line) : List (Option ℤ × Line) × (Bool × Bool × Bool) :=
  (renderNumbered conf g 0,
    if bc then checkBoundaries limX limY limZ g else (false, false, false))

/-! ### Concrete instances used by witnesses and counterexamples -/

/-- A spindle-on command `M3 S9000`. -/
def m3demo : Cmd := ⟨"M3", [("S", 9000)]⟩

/-- The spec's peck example: `G83` with `Q = 2`, `R = 0`, `Z = -5`. -/
def c2demoCmd : Cmd :=
  ⟨"G83", [("X", 10), ("Y", 10), ("Z", -5), ("R", 0), ("F", 100), ("Q", 2)]⟩

/-- A peck cycle whose increment exceeds the total depth:
`Q = 6`, `R = 0`, `Z = -5`. -/
def c2cexCmd : Cmd :=
  ⟨"G83", [("X", 10), ("Y", 10), ("Z", -5), ("R", 0), ("F", 100), ("Q", 6)]⟩

/-- A simple drill cycle at the current XY position with `Z = -5`,
`R = 2`. -/
def c3demoCmd : Cmd := ⟨"G81", [("X", 0), ("Y", 0), ("Z", -5), ("R", 2), ("F", 100)]⟩

/-- A drill cycle with invalid geometry (`R = 0 < 5 = Z`). -/
def c6demoCmd : Cmd := ⟨"G81", [("X", 1), ("Y", 1), ("Z", 5), ("R", 0), ("F", 100)]⟩

/-- A simple drill cycle at `(10, 10)` with `Z = -5`, `R = 2`. -/
def c7demoCmd : Cmd := ⟨"G81", [("X", 10), ("Y", 10), ("Z", -5), ("R", 2), ("F", 100)]⟩

/-- A stream whose last line is a comment and whose first line is a
command carrying `X`. -/
def c4demoStream : List Line := [.cmd ⟨"G1", [("X", 5)]⟩, .text .comment "c"]

/-- A stream with X travel 120, Y travel 50, Z travel 10. -/
def c8demoStream : List Line := [.cmd ⟨"G0", [("X", 120), ("Y", 50), ("Z", 10)]⟩]

/-- Rendering configuration: everything on, numbering from 1 step 1. -/
def c9demoConf : RenderConf := ⟨true, true, true, 1, 1⟩

/-- A stream holding a comment followed by a command. -/
def c9demoStream : List Line := [.text .comment "a", .cmd ⟨"G90", []⟩]

/-! ### Supporting lemmas -/

lemma tokenFor_fst {minS maxS : ℚ} {cp cs : ℚ → ℚ} {name p : String} {v : ℚ}
    {t : String × ℚ} (h : tokenFor minS maxS cp cs name p v = some t) :
    t.1 = p ∨ (p = "S" ∧ t.1 = "P") := by
  unfold tokenFor at h
  split_ifs at h with h1 h2 h3 h4 h5 h6 h7 <;>
    first
      | (cases h; exact Or.inl rfl)
      | (cases h; exact Or.inl h3.symm)
      | (cases h; exact Or.inr ⟨h3, rfl⟩)

lemma cmdEq_refl (c : Cmd) : cmdEq c c = true := by
  simp [cmdEq, paramsEq, List.all_eq_true]

lemma lineEq_refl (l : Line) : lineEq l l = true := by
  cases l with
  | cmd c => simpa [lineEq] using cmdEq_refl c
  | text k s => simp [lineEq]

lemma getLast?_append_single {α : Type} (g : List α) (a : α) :
    (g ++ [a]).getLast? = some a := by
  rw [List.getLast?_concat]

lemma feedMoves_nil : feedMoves [] = [] := rfl

lemma feedMoves_cons_g1 (ps : List (String × ℚ)) (rest : List Cmd) :
    feedMoves (⟨"G1", ps⟩ :: rest) = ⟨"G1", ps⟩ :: feedMoves rest := rfl

lemma feedMoves_cons_g0 (ps : List (String × ℚ)) (rest : List Cmd) :
    feedMoves (⟨"G0", ps⟩ :: rest) = feedMoves rest := rfl

lemma feedMoves_cons_g4 (ps : List (String × ℚ)) (rest : List Cmd) :
    feedMoves (⟨"G4", ps⟩ :: rest) = feedMoves rest := rfl

lemma feedMoves_append (l₁ l₂ : List Cmd) :
    feedMoves (l₁ ++ l₂) = feedMoves l₁ ++ feedMoves l₂ := by
  simp [feedMoves, List.filter_append]

/-- Fuel sufficiency for the peck loop: with `nextStopZ` less than `n`
steps of size `q` above the target depth, fuel `n + 1` does not run out. -/
lemma peckLoop_isSome (dz dr df q chip : ℚ) :
    ∀ (n : ℕ) (z : ℚ), z - dz < (n : ℚ) * q →
      (peckLoop dz dr df q chip (n + 1) z).isSome = true := by
  intro n
  induction n with
  | zero =>
    intro z hz
    have h : ¬ dz ≤ z := by push_cast at hz; intro h; linarith
    simp [peckLoop, h]
  | succ n ih =>
    intro z hz
    rw [peckLoop]
    split_ifs with h1 h2 h3
    · have : (z - q) - dz < (n : ℚ) * q := by push_cast at hz ⊢; linarith
      have := ih (z - q) this
      simpa using this
    · simp
    · simp
    · simp

/-- Every list the peck loop returns when entered at or above the target
depth ends its feed moves exactly at the target depth, with every feed
move at or above it. -/
lemma peckLoop_feeds (dz dr df q chip : ℚ) :
    ∀ (n : ℕ) (z : ℚ) (l : List Cmd),
      peckLoop dz dr df q chip n z = some l → dz ≤ z →
      feedMoves l ≠ [] ∧
        (∀ m ∈ feedMoves l, ∃ v, m.params.lookup "Z" = some v ∧ dz ≤ v) ∧
        (feedMoves l).getLast?.bind (fun m => m.params.lookup "Z") = some dz := by
  intro n
  induction n with
  | zero => intro z l h _; simp [peckLoop] at h
  | succ n ih =>
    intro z l h hz
    rw [peckLoop, if_pos hz] at h
    split_ifs at h with h2 h3
    · rcases Option.map_eq_some'.mp h with ⟨rest, hrest, rfl⟩
      obtain ⟨hne, hall, hlast⟩ := ih (z - q) rest hrest h2
      rw [feedMoves_cons_g1, feedMoves_cons_g0, feedMoves_cons_g0]
      refine ⟨by simp, ?_, ?_⟩
      · intro m hm
        rcases List.mem_cons.mp hm with rfl | hm
        · exact ⟨z, rfl, hz⟩
        · exact hall m hm
      · cases hfs : feedMoves rest with
        | nil => exact (hne hfs).elim
        | cons a t =>
          rw [List.getLast?_cons_cons]
          rw [hfs] at hlast
          exact hlast
    · cases h
      subst h3
      refine ⟨by simp [feedMoves_cons_g1], ?_, ?_⟩
      · intro m hm
        rw [feedMoves_cons_g1, feedMoves_nil] at hm
        rcases List.mem_singleton.mp hm with rfl
        exact ⟨z, rfl, le_refl z⟩
      · rw [feedMoves_cons_g1, feedMoves_nil]
        rfl
    · cases h
      rw [feedMoves_cons_g1, feedMoves_cons_g0, feedMoves_cons_g0, feedMoves_cons_g1,
        feedMoves_nil]
      refine ⟨by simp, ?_, ?_⟩
      · intro m hm
        rcases List.mem_cons.mp hm with rfl | hm
        · exact ⟨z, rfl, hz⟩
        · rcases List.mem_singleton.mp hm with rfl
          exact ⟨dz, rfl, le_refl dz⟩
      · rfl

/-- No command synthesized by the peck loop carries an `X` parameter. -/
lemma peckLoop_noX (dz dr df q chip : ℚ) :
    ∀ (n : ℕ) (z : ℚ) (l : List Cmd),
      peckLoop dz dr df q chip n z = some l →
      ∀ m ∈ l, m.params.lookup "X" = none := by
  intro n
  induction n with
  | zero => intro z l h; simp [peckLoop] at h
  | succ n ih =>
    intro z l h m hm
    rw [peckLoop] at h
    split_ifs at h with h1 h2 h3
    · rcases Option.map_eq_some'.mp h with ⟨rest, hrest, rfl⟩
      rcases List.mem_cons.mp hm with rfl | hm
      · rfl
      rcases List.mem_cons.mp hm with rfl | hm
      · rfl
      rcases List.mem_cons.mp hm with rfl | hm
      · rfl
      · exact ih (z - q) rest hrest m hm
    · cases h
      rcases List.mem_singleton.mp hm with rfl
      rfl
    · cases h
      rcases List.mem_cons.mp hm with rfl | hm
      · rfl
      rcases List.mem_cons.mp hm with rfl | hm
      · rfl
      rcases List.mem_cons.mp hm with rfl | hm
      · rfl
      rcases List.mem_singleton.mp hm with rfl
      rfl
    · cases h
      simp at hm

/-- No command synthesized by any drill-cycle body carries an `X`
parameter. -/
lemma drillBody_noX {c : Cmd} {dz dr df : ℚ} {b : List Cmd}
    (h : drillBody c dz dr df = some b) :
    ∀ m ∈ b, m.params.lookup "X" = none := by
  unfold drillBody at h
  split_ifs at h with h1 h2 h3
  · cases h
    intro m hm
    rcases List.mem_singleton.mp hm with rfl
    rfl
  · cases hp : c.params.lookup "P" with
    | none => rw [hp] at h; cases h
    | some p =>
      rw [hp] at h
      cases h
      intro m hm
      rcases List.mem_cons.mp hm with rfl | hm
      · rfl
      rcases List.mem_singleton.mp hm with rfl
      rfl
  · cases hq : c.params.lookup "Q" with
    | none => rw [hq] at h; cases h
    | some q =>
      rw [hq] at h
      exact peckLoop_noX dz dr df q (q * (1 / 2)) _ _ b h
  · cases h
    intro m hm
    simp at hm

lemma axisValues_cons (ax : String) (l : Line) (g : List Line) :
    axisValues ax (l :: g) =
      match lineAxisValue ax l with
      | some v => v :: axisValues ax g
      | none => axisValues ax g := by
  simp only [axisValues, List.filterMap_cons]
  cases lineAxisValue ax l <;> rfl

/-- The replay fold decomposes into three independent single-axis folds;
the `relative` flag never leaves `false` because `G91` also clears it. -/
lemma foldl_bstep_eq :
    ∀ (g : List Line) (a1 a2 a3 : BAxis),
      g.foldl bstep ⟨false, a1, a2, a3⟩ =
        ⟨false, axisFold (axisValues "X" g) a1, axisFold (axisValues "Y" g) a2,
          axisFold (axisValues "Z" g) a3⟩ := by
  intro g
  induction g with
  | nil => intro a1 a2 a3; rfl
  | cons l ls ih =>
    intro a1 a2 a3
    rw [List.foldl_cons]
    cases l with
    | text k s =>
      rw [show bstep ⟨false, a1, a2, a3⟩ (.text k s) = ⟨false, a1, a2, a3⟩ from rfl]
      rw [ih]
      simp [axisValues_cons, lineAxisValue]
    | cmd c =>
      by_cases h90 : c.name = "G90"
      · rw [show bstep ⟨false, a1, a2, a3⟩ (.cmd c) = ⟨false, a1, a2, a3⟩ by
          simp [bstep, h90]]
        rw [ih]
        have hnot : ¬(c.name = "G0" ∨ c.name = "G1") := by rw [h90]; decide
        simp [axisValues_cons, lineAxisValue, hnot]
      · by_cases h91 : c.name = "G91"
        · rw [show bstep ⟨false, a1, a2, a3⟩ (.cmd c) = ⟨false, a1, a2, a3⟩ by
            simp [bstep, h90, h91]]
          rw [ih]
          have hnot : ¬(c.name = "G0" ∨ c.name = "G1") := by rw [h91]; decide
          simp [axisValues_cons, lineAxisValue, hnot]
        · by_cases h01 : c.name = "G0" ∨ c.name = "G1"
          · rw [show bstep ⟨false, a1, a2, a3⟩ (.cmd c) =
                ⟨false, stepAxis false a1 (c.params.lookup "X"),
                  stepAxis false a2 (c.params.lookup "Y"),
                  stepAxis false a3 (c.params.lookup "Z")⟩ by
              simp [bstep, h90, h91, h01]]
            rw [ih]
            have hx : lineAxisValue "X" (.cmd c) = c.params.lookup "X" := by
              simp [lineAxisValue, h01]
            have hy : lineAxisValue "Y" (.cmd c) = c.params.lookup "Y" := by
              simp [lineAxisValue, h01]
            have hz : lineAxisValue "Z" (.cmd c) = c.params.lookup "Z" := by
              simp [lineAxisValue, h01]
            rw [axisValues_cons, axisValues_cons, axisValues_cons, hx, hy, hz]
            cases c.params.lookup "X" <;> cases c.params.lookup "Y" <;>
              cases c.params.lookup "Z" <;> rfl
          · rw [show bstep ⟨false, a1, a2, a3⟩ (.cmd c) = ⟨false, a1, a2, a3⟩ by
              simp [bstep, h90, h91, h01]]
            rw [ih]
            simp [axisValues_cons, lineAxisValue, h01]

lemma axisFold_mx : ∀ (vs : List ℚ) (a : BAxis), (axisFold vs a).mx = vs.foldl max a.mx := by
  intro vs
  induction vs with
  | nil => intro a; rfl
  | cons v t ih =>
    intro a
    rw [show axisFold (v :: t) a = axisFold t ⟨v, max a.mx v, min a.mn v⟩ from rfl]
    rw [ih, List.foldl_cons]

lemma axisFold_mn : ∀ (vs : List ℚ) (a : BAxis), (axisFold vs a).mn = vs.foldl min a.mn := by
  intro vs
  induction vs with
  | nil => intro a; rfl
  | cons v t ih =>
    intro a
    rw [show axisFold (v :: t) a = axisFold t ⟨v, max a.mx v, min a.mn v⟩ from rfl]
    rw [ih, List.foldl_cons]

lemma le_foldl_max : ∀ (vs : List ℚ) (a : ℚ), a ≤ vs.foldl max a := by
  intro vs
  induction vs with
  | nil => intro a; exact le_refl a
  | cons v t ih =>
    intro a
    rw [List.foldl_cons]
    exact le_trans (le_max_left a v) (ih (max a v))

lemma foldl_min_le : ∀ (vs : List ℚ) (a : ℚ), vs.foldl min a ≤ a := by
  intro vs
  induction vs with
  | nil => intro a; exact le_refl a
  | cons v t ih =>
    intro a
    rw [List.foldl_cons]
    exact le_trans (ih (min a v)) (min_le_left a v)

/-! ### Claim theorems -/

/-- C1: on a spindle-on command (`M3`/`M03`/`M4`/`M04`) carrying `S` with
rpm `s`, and a toolhead range `0 < minRpm ≤ maxRpm`, the rendered line
carries the value under letter `P` (never `S`), and that value is
`floor(clamp(s, minRpm, maxRpm) * 100 / maxRpm)`. -/
theorem c1_spindle_percent (cp cs : ℚ → ℚ) (minS maxS s : ℚ) (c : Cmd)
    (_hmin : 0 < minS) (hle : minS ≤ maxS)
    (hname : c.name ∈ spindleOnNames)
    (hS : c.params.lookup "S" = some s) :
    ("P", ((speedAsPercent minS maxS s : ℤ) : ℚ)) ∈ renderTokens cp cs minS maxS c ∧
    (∀ v : ℚ, ("S", v) ∉ renderTokens cp cs minS maxS c) ∧
    speedAsPercent minS maxS s = ⌊min (max s minS) maxS * 100 / maxS⌋ := by
  refine ⟨?_, ?_, ?_⟩
  · apply List.mem_filterMap.mpr
    refine ⟨"S", by decide, ?_⟩
    rw [hS]
    simp only [Option.some_bind]
    unfold tokenFor
    rw [if_neg (by decide), if_neg (by decide), if_pos rfl, if_pos hname]
  · intro v hv
    rcases List.mem_filterMap.mp hv with ⟨p, _, hf⟩
    rcases hb : c.params.lookup p with _ | w
    · rw [hb] at hf; cases hf
    · rw [hb] at hf
      simp only [Option.some_bind] at hf
      rcases tokenFor_fst hf with h | ⟨_, hP⟩
      · have hp' : p = "S" := h.symm
        rw [hp'] at hf
        unfold tokenFor at hf
        rw [if_neg (by decide), if_neg (by decide), if_pos rfl, if_pos hname] at hf
        simp at hf
      · simp at hP
  · unfold speedAsPercent
    have hcl : max (min s maxS) minS = min (max s minS) maxS := by
      rcases le_total s minS with h1 | h1 <;> rcases le_total s maxS with h2 | h2 <;>
        simp only [min_def, max_def] <;> split_ifs <;> linarith
    rw [hcl]

/-- C1 witness: `s = 9000`, `minRpm = 6000`, `maxRpm = 12000` renders as
`P` with value 75 and no `S` token. -/
theorem c1_spindle_percent_witness :
    (0 : ℚ) < 6000 ∧ (6000 : ℚ) ≤ 12000 ∧
    ("P", ((75 : ℤ) : ℚ)) ∈ renderTokens id id 6000 12000 m3demo ∧
    (∀ v : ℚ, ("S", v) ∉ renderTokens id id 6000 12000 m3demo) := by
  have h := c1_spindle_percent id id 6000 12000 9000 m3demo (by norm_num) (by norm_num)
    (by decide) rfl
  have h75 : speedAsPercent 6000 12000 9000 = 75 := by
    unfold speedAsPercent
    have he : max (min (9000 : ℚ) 12000) 6000 * 100 / 12000 = ((75 : ℤ) : ℚ) := by norm_num
    rw [he, Int.floor_intCast]
  refine ⟨by norm_num, by norm_num, ?_, h.2.1⟩
  have h1 := h.1
  rw [h75] at h1
  exact h1

/-- C5: appending the same `Command` twice in a row leaves exactly one
new copy with duplicate suppression enabled (the second append is a
no-op), and two new copies with it disabled. -/
theorem c5_append_dedup (g : List Line) (x : Cmd) :
    gAppend true (gAppend true g (.cmd x)) (.cmd x) = gAppend true g (.cmd x) ∧
    gAppend false (gAppend false g (.cmd x)) (.cmd x) = g ++ [.cmd x, .cmd x] := by
  have hfalse : ∀ (g' : List Line) (l : Line), gAppend false g' l = g' ++ [l] := by
    intro g' l
    unfold gAppend
    cases g'.getLast? <;> simp
  constructor
  · cases hlast : g.getLast? with
    | none =>
      have h1 : gAppend true g (.cmd x) = g ++ [.cmd x] := by
        unfold gAppend; rw [hlast]
      rw [h1]
      unfold gAppend
      rw [getLast?_append_single]
      simp [lineEq_refl]
    | some prev =>
      by_cases heq : lineEq prev (.cmd x) = true
      · have h1 : gAppend true g (.cmd x) = g := by
          unfold gAppend; rw [hlast]; simp [heq]
        rw [h1]
        unfold gAppend
        rw [hlast]
        simp [heq]
      · have h1 : gAppend true g (.cmd x) = g ++ [.cmd x] := by
          unfold gAppend; rw [hlast]; simp [heq]
        rw [h1]
        unfold gAppend
        rw [getLast?_append_single]
        simp [lineEq_refl]
  · rw [hfalse, hfalse, List.append_assoc]
    rfl

/-- C10: `Command.__eq__` against any line that is not a `Command` (raw
string, `Comment`, `Header`) returns `False` instead of raising, in both
orientations, so dedup-on-append across mixed line types is well
defined and simply appends. -/
theorem c10_command_eq_total (c : Cmd) (k : TKind) (s : String) :
    lineEq (.cmd c) (.text k s) = false ∧ lineEq (.text k s) (.cmd c) = false ∧
    gAppend true [.text k s] (.cmd c) = [.text k s, .cmd c] :=
  ⟨rfl, rfl, rfl⟩

/-- C6: a canned cycle whose retract height lies below the target depth
(`R < Z`) emits no motion at all: `translateDrill` returns the empty
emission list, leaving the stream unchanged. -/
theorem c6_reject_invalid (mode : RetractMode) (px py pz : ℚ) (c : Cmd)
    (dx dy dz dr df : ℚ)
    (hX : c.params.lookup "X" = some dx)
    (hY : c.params.lookup "Y" = some dy)
    (hZ : c.params.lookup "Z" = some dz)
    (hR : c.params.lookup "R" = some dr)
    (hF : c.params.lookup "F" = some df)
    (h : dr < dz) :
    translateDrill mode px py pz c = some [] := by
  simp only [translateDrill, hX, hY, hZ, hR, hF]
  rw [if_pos h]

/-- C6 witness: a `G81` with `R = 0 < 5 = Z` is rejected with no
emission. -/
theorem c6_reject_invalid_witness :
    (0 : ℚ) < 5 ∧ translateDrill defaultRetractMode 0 0 0 c6demoCmd = some [] :=
  ⟨by norm_num,
    c6_reject_invalid defaultRetractMode 0 0 0 c6demoCmd 1 1 5 0 100
      rfl rfl rfl rfl rfl (by norm_num)⟩

/-- C7: a translated drill cycle emits the rapid XY repositioning move to
`(X, Y)` exactly when both the X and the Y target differ from the current
position; with one axis equal, no XY move is emitted. -/
theorem c7_xy_reposition (mode : RetractMode) (px py pz : ℚ) (c : Cmd)
    (dx dy dz dr df : ℚ) (l : List Cmd)
    (hX : c.params.lookup "X" = some dx)
    (hY : c.params.lookup "Y" = some dy)
    (hZ : c.params.lookup "Z" = some dz)
    (hR : c.params.lookup "R" = some dr)
    (hF : c.params.lookup "F" = some df)
    (hrz : dz ≤ dr)
    (h : translateDrill mode px py pz c = some l) :
    (Cmd.mk "G0" [("X", dx), ("Y", dy)] ∈ l) ↔ (px ≠ dx ∧ py ≠ dy) := by
  simp only [translateDrill, hX, hY, hZ, hR, hF] at h
  rw [if_neg (not_lt.mpr hrz)] at h
  rcases Option.map_eq_some'.mp h with ⟨b, hb, rfl⟩
  constructor
  · intro hmem
    by_contra hcond
    rcases List.mem_append.mp hmem with hx | hfin
    · rcases List.mem_append.mp hx with hpre | hb'
      · rcases List.mem_append.mp hpre with h12 | hdr
        · rcases List.mem_append.mp h12 with h1 | h2
          · by_cases hc : pz < retractZOf mode pz dr
            · rw [if_pos hc] at h1
              simp at h1
            · rw [if_neg hc] at h1
              simp at h1
          · rw [if_neg hcond] at h2
            simp at h2
        · simp at hdr
      · have hnx := drillBody_noX hb _ hb'
        simp at hnx
    · simp at hfin
  · intro hcond
    apply List.mem_append.mpr
    left
    apply List.mem_append.mpr
    left
    apply List.mem_append.mpr
    left
    apply List.mem_append.mpr
    right
    rw [if_pos hcond]
    exact List.mem_singleton.mpr rfl

/-- C7 witness: from `(0, 0, 0)`, a cycle targeting `(10, 10)` emits the
XY repositioning move. -/
theorem c7_xy_reposition_witness :
    ((0 : ℚ) ≠ 10 ∧ (0 : ℚ) ≠ 10) ∧ (-5 : ℚ) ≤ 2 ∧
    Cmd.mk "G0" [("X", 10), ("Y", 10)] ∈
      [Cmd.mk "G0" [("Z", 2)], Cmd.mk "G0" [("X", 10), ("Y", 10)], Cmd.mk "G0" [("Z", 2)],
        Cmd.mk "G1" [("Z", -5), ("F", 100)], Cmd.mk "G0" [("Z", 2)]] := by
  refine ⟨⟨by norm_num, by norm_num⟩, by norm_num, ?_⟩
  exact (c7_xy_reposition defaultRetractMode 0 0 0 c7demoCmd 10 10 (-5) 2 100 _
    rfl rfl rfl rfl rfl (by norm_num) rfl).mpr ⟨by norm_num, by norm_num⟩

/-- C3 (code evaluation at the failing input): under the default retract
mode — the `Command("G98")` object — the comparison against the string
`"G98"` is `False`, so with current Z = 10 above R = 2 the cycle
retracts to `R = 2`, not to the initial height 10; once the mode has
been set from a `G98` command's name string, the claimed behavior does
hold. -/
theorem c3_retract_mode_eval :
    retractZOf defaultRetractMode 10 2 = 2 ∧ ((2 : ℚ) ≠ 10) ∧
    retractZOf (.ofName "G98") 10 2 = 10 ∧
    translateDrill defaultRetractMode 0 0 10 c3demoCmd =
      some [Cmd.mk "G0" [("Z", 2)], Cmd.mk "G1" [("Z", -5), ("F", 100)],
        Cmd.mk "G0" [("Z", 2)]] :=
  ⟨rfl, by norm_num, rfl, rfl⟩

/-- C4 (code evaluation at the failing input): with a two-line stream
whose last line is a comment, `lastParameter`/`lastCommand` return the
default after inspecting only that last line, while the full backward
scan the spec prescribes finds the value on the first line; moreover a
one-element stream makes the source fall through to `None` even though
its only line matches. -/
theorem c4_backward_scan_eval :
    lastParameter c4demoStream "X" [] (some 0) = some 0 ∧
    lastParameterScan c4demoStream "X" [] (some 0) = some 5 ∧
    lastCommand c4demoStream ["G1"] none = none ∧
    lastCommandScan c4demoStream ["G1"] none = some ⟨"G1", [("X", 5)]⟩ ∧
    lastParameter [Line.cmd ⟨"G1", [("X", 5)]⟩] "X" [] (some 0) = none :=
  ⟨rfl, rfl, rfl, rfl, rfl⟩

/-- C2 (amended): a `G83` cycle with `Q > 0` and `R ≥ Z` always
terminates (the translation yields a finite emission list); when
additionally `R - Q ≥ Z`, so that at least one peck fits, the cycle
contains feed moves, every feed move stays at or above the target depth,
and the last feed move lands exactly on `Z`. -/
theorem c2_peck_cycle (mode : RetractMode) (px py pz : ℚ) (c : Cmd)
    (dx dy dz dr df q : ℚ)
    (hX : c.params.lookup "X" = some dx)
    (hY : c.params.lookup "Y" = some dy)
    (hZ : c.params.lookup "Z" = some dz)
    (hR : c.params.lookup "R" = some dr)
    (hF : c.params.lookup "F" = some df)
    (hN : c.name = "G83")
    (hQ : c.params.lookup "Q" = some q)
    (hq : 0 < q) (hrz : dz ≤ dr) :
    ∃ l, translateDrill mode px py pz c = some l ∧
      (dz ≤ dr - q →
        feedMoves l ≠ [] ∧
        (∀ m ∈ feedMoves l, ∃ v, m.params.lookup "Z" = some v ∧ dz ≤ v) ∧
        (feedMoves l).getLast?.bind (fun m => m.params.lookup "Z") = some dz) := by
  have hfuel : (dr - q) - dz < ((⌈(dr - dz) / q⌉.toNat : ℕ) : ℚ) * q := by
    have h0 : (0 : ℚ) ≤ dr - dz := by linarith
    have hceil0 : 0 ≤ ⌈(dr - dz) / q⌉ := Int.ceil_nonneg (div_nonneg h0 hq.le)
    have h1 : (dr - dz) / q ≤ ((⌈(dr - dz) / q⌉ : ℤ) : ℚ) := Int.le_ceil _
    have h2 : dr - dz ≤ ((⌈(dr - dz) / q⌉ : ℤ) : ℚ) * q := (div_le_iff₀ hq).mp h1
    have h3 : ((⌈(dr - dz) / q⌉.toNat : ℕ) : ℚ) = ((⌈(dr - dz) / q⌉ : ℤ) : ℚ) := by
      exact_mod_cast Int.toNat_of_nonneg hceil0
    rw [h3]
    linarith
  have hsome := peckLoop_isSome dz dr df q (q * (1 / 2)) ⌈(dr - dz) / q⌉.toNat
    (dr - q) hfuel
  rcases Option.isSome_iff_exists.mp hsome with ⟨b, hb⟩
  have hbody : drillBody c dz dr df = some b := by
    simp only [drillBody, hN, hQ]
    simpa using hb
  simp only [translateDrill, hX, hY, hZ, hR, hF]
  rw [if_neg (not_lt.mpr hrz)]
  rw [hbody]
  simp only [Option.map_some']
  refine ⟨_, rfl, ?_⟩
  intro hstep
  have hfm :
      feedMoves
          (((if pz < retractZOf mode pz dr then
                [Cmd.mk "G0" [("Z", retractZOf mode pz dr)]] else []) ++
              (if px ≠ dx ∧ py ≠ dy then [Cmd.mk "G0" [("X", dx), ("Y", dy)]] else []) ++
              [Cmd.mk "G0" [("Z", dr)]]) ++ b ++
            [Cmd.mk "G0" [("Z", retractZOf mode pz dr)]]) = feedMoves b := by
    rw [feedMoves_append, feedMoves_append, feedMoves_append, feedMoves_append]
    have e1 : feedMoves (if pz < retractZOf mode pz dr then
        [Cmd.mk "G0" [("Z", retractZOf mode pz dr)]] else []) = [] := by
      split_ifs <;> rfl
    have e2 : feedMoves (if px ≠ dx ∧ py ≠ dy then
        [Cmd.mk "G0" [("X", dx), ("Y", dy)]] else []) = [] := by
      split_ifs <;> rfl
    have e3 : feedMoves [Cmd.mk "G0" [("Z", dr)]] = [] := rfl
    have e4 : feedMoves [Cmd.mk "G0" [("Z", retractZOf mode pz dr)]] = [] := rfl
    rw [e1, e2, e3, e4]
    simp
  rw [hfm]
  exact peckLoop_feeds dz dr df q (q * (1 / 2)) _ _ b hb hstep

/-- C2 witness: `Q = 2`, `R = 0`, `Z = -5` terminates, and its last feed
move is exactly `Z = -5` with no feed move below. -/
theorem c2_peck_cycle_witness :
    (0 : ℚ) < 2 ∧ (-5 : ℚ) ≤ 0 ∧ (-5 : ℚ) ≤ 0 - 2 ∧
    ∃ l, translateDrill defaultRetractMode 0 0 0 c2demoCmd = some l ∧
      (feedMoves l ≠ [] ∧
        (∀ m ∈ feedMoves l, ∃ v, m.params.lookup "Z" = some v ∧ (-5 : ℚ) ≤ v) ∧
        (feedMoves l).getLast?.bind (fun m => m.params.lookup "Z") = some (-5)) := by
  refine ⟨by norm_num, by norm_num, by norm_num, ?_⟩
  obtain ⟨l, hl, himp⟩ := c2_peck_cycle defaultRetractMode 0 0 0 c2demoCmd
    10 10 (-5) 0 100 2 rfl rfl rfl rfl rfl rfl rfl (by norm_num) (by norm_num)
  exact ⟨l, hl, himp (by norm_num)⟩

/-- C2 counterexample to the claim as stated: `Q = 6 > 0`, `R = 0 ≥ -5 =
Z` satisfies the claim's hypotheses, yet the translation emits no feed
move at all (`R - Q` already lies below `Z`), so no feed move lands on
`Z`. -/
theorem c2_peck_counterexample :
    (0 : ℚ) < 6 ∧ (-5 : ℚ) ≤ 0 ∧
    translateDrill defaultRetractMode 0 0 0 c2cexCmd =
      some [Cmd.mk "G0" [("X", 10), ("Y", 10)], Cmd.mk "G0" [("Z", 0)],
        Cmd.mk "G0" [("Z", 0)]] ∧
    feedMoves [Cmd.mk "G0" [("X", 10), ("Y", 10)], Cmd.mk "G0" [("Z", 0)],
      Cmd.mk "G0" [("Z", 0)]] = [] := by
  refine ⟨by norm_num, by norm_num, ?_, rfl⟩
  have hpeck : peckLoop (-5) 0 100 6 (6 * (1 / 2)) 2 (-6) = some [] := by
    show peckLoop (-5) 0 100 6 (6 * (1 / 2)) (1 + 1) (-6) = some []
    simp only [peckLoop]
    rw [if_neg (by norm_num : ¬(-5 : ℚ) ≤ -6)]
  have hbody : drillBody c2cexCmd (-5) 0 100 = some [] := by
    simp only [drillBody]
    rw [if_neg (by decide), if_neg (by decide), if_pos (by decide :
      c2cexCmd.name = "G83")]
    rw [show c2cexCmd.params.lookup "Q" = some 6 from rfl]
    show peckLoop (-5) 0 100 6 (6 * (1 / 2)) (⌈((0 : ℚ) - (-5)) / 6⌉.toNat + 1)
      (0 - 6) = some []
    rw [show ((0 : ℚ) - (-5)) = 5 by norm_num]
    rw [show ⌈(5 : ℚ) / 6⌉ = 1 by norm_num [Int.ceil_eq_iff]]
    rw [show ((1 : ℤ).toNat + 1) = 2 from rfl]
    rw [show ((0 : ℚ) - 6) = -6 by norm_num]
    exact hpeck
  simp only [translateDrill,
    show c2cexCmd.params.lookup "X" = some 10 from rfl,
    show c2cexCmd.params.lookup "Y" = some 10 from rfl,
    show c2cexCmd.params.lookup "Z" = some (-5) from rfl,
    show c2cexCmd.params.lookup "R" = some 0 from rfl,
    show c2cexCmd.params.lookup "F" = some 100 from rfl]
  rw [if_neg (by decide : ¬(0 : ℚ) < -5)]
  rw [hbody]
  simp only [Option.map_some']
  rw [show retractZOf defaultRetractMode 0 0 = 0 from rfl]
  rw [if_neg (lt_irrefl (0 : ℚ))]
  rw [if_pos (⟨by decide, by decide⟩ : ((0 : ℚ) ≠ 10 ∧ (0 : ℚ) ≠ 10))]
  rfl

/-- C8: the boundary checker replays the stream and warns on an axis
exactly when that axis's replayed travel extent (max minus min of the
accumulated positions) exceeds the configured limit; with limits
`(100, 100, 50)` and an X travel of 120, only X is reported; and the
exported artifact never depends on the check's outcome. -/
theorem c8_boundary_check :
    (∀ (limX limY limZ : ℚ) (g : List Line),
      ((checkBoundaries limX limY limZ g).1 = true ↔ limX < specExtent "X" g) ∧
      ((checkBoundaries limX limY limZ g).2.1 = true ↔ limY < specExtent "Y" g) ∧
      ((checkBoundaries limX limY limZ g).2.2 = true ↔ limZ < specExtent "Z" g)) ∧
    checkBoundaries 100 100 50 c8demoStream = (true, false, false) ∧
    (∀ (conf : RenderConf) (bc : Bool) (limX limY limZ : ℚ) (g : List Line),
      (exportResult conf bc limX limY limZ g).1 = renderNumbered conf g 0) := by
  have habs : ∀ (ax : String) (g : List Line),
      |(axisFold (axisValues ax g) ⟨0, 0, 0⟩).mx -
          (axisFold (axisValues ax g) ⟨0, 0, 0⟩).mn| = specExtent ax g := by
    intro ax g
    rw [axisFold_mx, axisFold_mn]
    have h1 : (0 : ℚ) ≤ (axisValues ax g).foldl max 0 := le_foldl_max _ 0
    have h2 : (axisValues ax g).foldl min 0 ≤ 0 := foldl_min_le _ 0
    rw [abs_of_nonneg (by linarith)]
    rfl
  have key : ∀ (limX limY limZ : ℚ) (g : List Line),
      checkBoundaries limX limY limZ g =
        (decide (limX < specExtent "X" g), decide (limY < specExtent "Y" g),
          decide (limZ < specExtent "Z" g)) := by
    intro limX limY limZ g
    simp only [checkBoundaries]
    rw [show initBSt = (⟨false, ⟨0, 0, 0⟩, ⟨0, 0, 0⟩, ⟨0, 0, 0⟩⟩ : BSt) from rfl]
    rw [foldl_bstep_eq]
    rw [show (⟨false, axisFold (axisValues "X" g) ⟨0, 0, 0⟩,
        axisFold (axisValues "Y" g) ⟨0, 0, 0⟩,
        axisFold (axisValues "Z" g) ⟨0, 0, 0⟩⟩ : BSt).ax =
      axisFold (axisValues "X" g) ⟨0, 0, 0⟩ from rfl]
    rw [show (⟨false, axisFold (axisValues "X" g) ⟨0, 0, 0⟩,
        axisFold (axisValues "Y" g) ⟨0, 0, 0⟩,
        axisFold (axisValues "Z" g) ⟨0, 0, 0⟩⟩ : BSt).ay =
      axisFold (axisValues "Y" g) ⟨0, 0, 0⟩ from rfl]
    rw [show (⟨false, axisFold (axisValues "X" g) ⟨0, 0, 0⟩,
        axisFold (axisValues "Y" g) ⟨0, 0, 0⟩,
        axisFold (axisValues "Z" g) ⟨0, 0, 0⟩⟩ : BSt).az =
      axisFold (axisValues "Z" g) ⟨0, 0, 0⟩ from rfl]
    rw [habs "X" g, habs "Y" g, habs "Z" g]
  refine ⟨?_, ?_, fun _ _ _ _ _ _ => rfl⟩
  · intro limX limY limZ g
    rw [key]
    refine ⟨?_, ?_, ?_⟩ <;> simp
  · rw [key]
    have aX : axisValues "X" c8demoStream = [120] := rfl
    have aY : axisValues "Y" c8demoStream = [50] := rfl
    have aZ : axisValues "Z" c8demoStream = [10] := rfl
    have eX : specExtent "X" c8demoStream = 120 := by
      unfold specExtent
      rw [aX, show List.foldl max (0 : ℚ) [120] = max 0 120 from rfl,
        show List.foldl min (0 : ℚ) [120] = min 0 120 from rfl,
        max_eq_right (by norm_num : (0 : ℚ) ≤ 120),
        min_eq_left (by norm_num : (0 : ℚ) ≤ 120)]
      norm_num
    have eY : specExtent "Y" c8demoStream = 50 := by
      unfold specExtent
      rw [aY, show List.foldl max (0 : ℚ) [50] = max 0 50 from rfl,
        show List.foldl min (0 : ℚ) [50] = min 0 50 from rfl,
        max_eq_right (by norm_num : (0 : ℚ) ≤ 50),
        min_eq_left (by norm_num : (0 : ℚ) ≤ 50)]
      norm_num
    have eZ : specExtent "Z" c8demoStream = 10 := by
      unfold specExtent
      rw [aZ, show List.foldl max (0 : ℚ) [10] = max 0 10 from rfl,
        show List.foldl min (0 : ℚ) [10] = min 0 10 from rfl,
        max_eq_right (by norm_num : (0 : ℚ) ≤ 10),
        min_eq_left (by norm_num : (0 : ℚ) ≤ 10)]
      norm_num
    rw [eX, eY, eZ]
    decide

/-- C9 (amended): with line numbering enabled, rendering filters the
stream by the included line types and then prefixes exactly the
`Command` and raw passthrough lines with `N(start + n*increment)`, `n`
counting those numbered lines from 0; rendered comment and header lines
carry no number. -/
theorem c9_line_numbering (conf : RenderConf) (g : List Line)
    (h : conf.line_numbers = true) :
    renderNumbered conf g 0 = specNumbering conf (g.filter (included conf)) 0 := by
  suffices H : ∀ (gs : List Line) (n : ℕ),
      renderNumbered conf gs n = specNumbering conf (gs.filter (included conf)) n from
    H g 0
  intro gs
  induction gs with
  | nil => intro n; rfl
  | cons l ls ih =>
    intro n
    cases hinc : included conf l with
    | false => simp [renderNumbered, List.filter_cons, hinc, ih n]
    | true =>
      cases hnum : numberedKind l with
      | true =>
        simp [renderNumbered, specNumbering, List.filter_cons, hinc, hnum, h, ih (n + 1)]
      | false =>
        simp [renderNumbered, specNumbering, List.filter_cons, hinc, hnum, h, ih n]

/-- C9 witness: with comments and headers off and numbering from 1 step
1, rendering a comment-plus-command stream agrees with the amended
numbering contract. -/
theorem c9_line_numbering_witness :
    (RenderConf.mk false false true 1 1).line_numbers = true ∧
    renderNumbered ⟨false, false, true, 1, 1⟩ c9demoStream 0 =
      specNumbering ⟨false, false, true, 1, 1⟩
        (c9demoStream.filter (included ⟨false, false, true, 1, 1⟩)) 0 :=
  ⟨rfl, c9_line_numbering _ _ rfl⟩

/-- C9 counterexample to the claim as stated: with comments enabled and
numbering enabled (start 1, increment 1), the first rendered line is a
comment and carries no `N` prefix, and the number sequence is not the
claimed `N1, N2` over all rendered lines. -/
theorem c9_comment_unnumbered_counterexample :
    renderNumbered c9demoConf c9demoStream 0 =
      [(none, Line.text .comment "a"), (some 1, Line.cmd ⟨"G90", []⟩)] ∧
    (renderNumbered c9demoConf c9demoStream 0).map Prod.fst ≠ [some 1, some 2] := by
  refine ⟨rfl, ?_⟩
  decide

end Snapmaker
